import Mathlib

/-!
Verification of the duty-management application (src/app.py).

We shallowly embed the two algorithmic cores of the program:
  * the duty-roster generator (`create_duty_schedule_for_term`, `regenerate_week`),
  * the table distributor (`distribute_students_to_tables_smart`, here `distribute`).

Conventions of the embedding:
  * Calendar dates are modelled as integers (days); `timedelta(days=n)` is `+ n`.
  * Database rows are Lean structures keeping the source's column names; the
    session is a `DB` record of row lists together with fresh-id counters
    (primary keys are handed out sequentially, as `db.session.flush()` does).
  * `random.shuffle` is modelled by an explicit function parameter; theorems
    that depend on it assume it permutes its input.  `random.uniform(0, 2)`
    jitter is modelled by a rational-valued function parameter.
  * `flash` messages are dropped; only the boolean success status is kept.
  * `db.session.commit()` is assumed to succeed (SQLite raises no error on the
    modelled operations); the `except`/rollback branches are therefore dead.
  * `WeeklyDutyAssignment.query.filter_by(term_id=...).delete()` is a bulk SQL
    DELETE.  SQLAlchemy's bulk delete does not run the ORM-level
    `cascade='all, delete-orphan'` of `WeeklyDutyAssignment.daily_duties`, and
    the `DailyDuty.weekly_assignment_id` foreign key has no database-level
    `ON DELETE` action (and SQLite foreign-key enforcement is off by default),
    so the bulk delete removes only the weekly rows and leaves the daily rows
    in place.  The embedding reflects exactly that.
-/

namespace DutyMgmt

/-- The `Student` model (src/app.py lines 23-36).  Only the columns the embedded
algorithms read are kept: `grade`, `gender`, `country` are nullable, and
`table_number` is the nullable table membership.  `id` is the primary key. -/
structure Student where
  id : Nat
  grade : Option Int
  gender : Option String
  country : Option String
  table_number : Option Int
deriving DecidableEq, Repr

/-- The `Table` model (src/app.py lines 38-45): unique `table_number`, descriptive
`capacity`, and the derived `current_count` cache. -/
structure Table where
  table_number : Int
  capacity : Int
  current_count : Int
deriving DecidableEq, Repr

/-- The `Term` model (src/app.py lines 71-84); only the columns the generator
reads (`id`, `start_date`, `weeks`) are kept. -/
structure Term where
  id : Nat
  start_date : Int
  weeks : Nat
deriving DecidableEq, Repr

/-- The `WeeklyDutyAssignment` model (src/app.py lines 86-98). -/
structure WeeklyRow where
  id : Nat
  term_id : Nat
  week_number : Nat
  table_number : Int
  start_date : Int
  end_date : Int
deriving DecidableEq, Repr

/-- The `DailyDuty` model (src/app.py lines 100-113): a `(date, shift)` cell of a
weekly assignment with two nullable student slots. -/
structure DailyRow where
  id : Nat
  weekly_assignment_id : Nat
  date : Int
  shift : String
  student1_id : Option Nat
  student2_id : Option Nat
deriving DecidableEq, Repr

/-- The database session state: the row tables plus sequential primary-key
counters for the two kinds of rows the generator inserts. -/
structure DB where
  students : List Student
  tables : List Table
  terms : List Term
  weekly : List WeeklyRow
  daily : List DailyRow
  nextWeeklyId : Nat
  nextDailyId : Nat
deriving DecidableEq, Repr

/-- Placeholder row used as the (never reached) default of list indexing. -/
def dummyStudent : Student := ⟨0, none, none, none, none⟩

/-- Placeholder table used as the (never reached) default of list indexing. -/
def dummyTable : Table := ⟨0, 0, 0⟩

/-- Sorted insertion by `table_number`, used to embed
`Table.query.order_by(Table.table_number)`. -/
def insertTable (t : Table) : List Table → List Table
  | [] => [t]
  | u :: us => if t.table_number ≤ u.table_number then t :: u :: us else u :: insertTable t us

/-- The query `Table.query.order_by(Table.table_number).all()`: insertion sort of the
stored tables by `table_number`. -/
def sortTables : List Table → List Table
  | [] => []
  | t :: ts => insertTable t (sortTables ts)

/-- The query `Student.query.filter_by(table_number=tn).all()`: members of a table. -/
def membersOf (students : List Student) (tn : Int) : List Student :=
  students.filter (fun s => s.table_number == some tn)

/-- The `while len(student_pool) < 28: student_pool.extend(table_students)`
loop (src/app.py lines 169-170 and 886-887), with explicit fuel: each pass
appends `base` once; 28 passes are always enough when `base` is non-empty. -/
def padPool : Nat → List Student → List Student → List Student
  | 0, pool, _ => pool
  | f + 1, pool, base => if pool.length < 28 then padPool f (pool ++ base) base else pool

/-- One daily-duty row of the 7-day x 2-shift walk (src/app.py lines 174-191):
row index `r` (0..13) corresponds to day `r / 2`, shift AM/PM by parity, and
consumes pool entries `2*r` and `2*r + 1` (mod pool length). -/
def mkDuty (wid did0 : Nat) (weekStart : Int) (pool : List Student) (r : Nat) : DailyRow :=
  { id := did0 + r
    weekly_assignment_id := wid
    date := weekStart + ((r / 2 : Nat) : Int)
    shift := if r % 2 == 0 then "AM" else "PM"
    student1_id := some (pool.getD ((2 * r) % pool.length) dummyStudent).id
    student2_id := some (pool.getD ((2 * r + 1) % pool.length) dummyStudent).id }

/-- The 14 daily-duty rows created for one week (days 0..6, shifts AM then PM,
a monotone pool index wrapping modulo the pool length). -/
def mkDailyRows (wid did0 : Nat) (weekStart : Int) (pool : List Student) : List DailyRow :=
  (List.range 14).map (mkDuty wid did0 weekStart pool)

/-- The week loop of `create_duty_schedule_for_term` (src/app.py lines
137-193).  `n` is the number of weeks still to produce, `weekNum` the current
1-based week number, `curDate` the running `current_date`, `wid`/`did` the next
free primary keys.  A week whose table has no members still yields its weekly
row but no daily rows (the `continue` at line 161). -/
def genWeeksAux (sh : Nat → List Student → List Student) (termId : Nat)
    (tables : List Table) (students : List Student) :
    Nat → Nat → Int → Nat → Nat → List WeeklyRow × List DailyRow
  | 0, _, _, _, _ => ([], [])
  | n + 1, weekNum, curDate, wid, did =>
    let table := tables.getD ((weekNum - 1) % tables.length) dummyTable
    let row : WeeklyRow :=
      ⟨wid, termId, weekNum, table.table_number, curDate, curDate + 6⟩
    let ts := membersOf students table.table_number
    if ts.isEmpty then
      let rest := genWeeksAux sh termId tables students n (weekNum + 1) (curDate + 7) (wid + 1) did
      (row :: rest.1, rest.2)
    else
      let pool := padPool 28 (sh weekNum ts) ts
      let newDs := mkDailyRows wid did curDate pool
      let rest := genWeeksAux sh termId tables students n (weekNum + 1) (curDate + 7) (wid + 1) (did + 14)
      (row :: rest.1, newDs ++ rest.2)

/-- The function `create_duty_schedule_for_term` (src/app.py lines 119-200).  Looks up the
term, requires at least one table, bulk-deletes the term's weekly rows (the
bulk delete does not cascade to daily rows, see the module comment), then
builds the round-robin weekly rows and their daily duties. -/
def create_duty_schedule_for_term (sh : Nat → List Student → List Student)
    (db : DB) (termId : Nat) : Bool × DB :=
  match db.terms.find? (fun t => t.id == termId) with
  | none => (false, db)
  | some term =>
    let tables := sortTables db.tables
    if tables.isEmpty then (false, db)
    else
      let weeklyKept := db.weekly.filter (fun r => r.term_id != termId)
      let gen := genWeeksAux sh termId tables db.students term.weeks 1 term.start_date
        db.nextWeeklyId db.nextDailyId
      (true,
        { db with
            weekly := weeklyKept ++ gen.1
            daily := db.daily ++ gen.2
            nextWeeklyId := db.nextWeeklyId + gen.1.length
            nextDailyId := db.nextDailyId + gen.2.length })

/-- The endpoint `regenerate_week` (src/app.py lines 859-915): look up the weekly
assignment, require its table to have members, delete exactly that week's
daily rows (`DailyDuty.query.filter_by(weekly_assignment_id=...).delete()`),
and recreate 14 rows from a fresh shuffled, padded pool. -/
def regenerate_week (sh : List Student → List Student) (db : DB)
    (waid : Nat) : Bool × DB :=
  match db.weekly.find? (fun w => w.id == waid) with
  | none => (false, db)
  | some wa =>
    let ts := membersOf db.students wa.table_number
    if ts.isEmpty then (false, db)
    else
      let dailyKept := db.daily.filter (fun d => d.weekly_assignment_id != waid)
      let pool := padPool 28 (sh ts) ts
      let newDs := mkDailyRows wa.id db.nextDailyId wa.start_date pool
      (true,
        { db with
            daily := dailyKept ++ newDs
            nextDailyId := db.nextDailyId + newDs.length })

/-! ## Table distributor (src/app.py lines 214-309)

The distributor's randomness is made explicit:
  * `order` is the sequence in which the unassigned students are scored and
    placed.  In the source this order is a shuffle of the unassigned query
    result regrouped by grade (with grade-groups visited in shuffled order and
    each group's students shuffled); every such order is a permutation of the
    unassigned students, and each theorem that needs it assumes exactly that.
  * `jit i t` is the `random.uniform(0, 2)` jitter drawn when scoring table
    `t` for the `i`-th placed student.
`table_assignments` is the association list `asg` from table number to the
students placed there during this run, with keys in the order of the sorted
table query (Python dict insertion order). -/

/-- The weighted collision count of src/app.py lines 268-272: 3 per existing
member of the candidate table sharing the student's grade, 2 per member
sharing gender, 2 per member sharing country (ORM attribute equality, so two
absent values compare equal). -/
def scoreTable (cur : List Student) (st : Student) : Nat :=
  3 * cur.countP (fun s => s.grade == st.grade)
    + 2 * cur.countP (fun s => s.gender == st.gender)
    + 2 * cur.countP (fun s => s.country == st.country)

/-- The full score of a candidate table: the collision count plus the drawn
jitter (src/app.py lines 272-273). -/
def totalScore (j : Int → ℚ) (cur : List Student) (st : Student) (t : Int) : ℚ :=
  (scoreTable cur st : ℚ) + j t

/-- Students placed at table `k` so far during this run
(`table_assignments[table_num]`). -/
def lookupA (asg : List (Int × List Student)) (k : Int) : List Student :=
  ((asg.find? (fun p => p.1 == k)).map Prod.snd).getD []

/-- The update `table_assignments[k].append(st)`. -/
def updateA (asg : List (Int × List Student)) (k : Int) (st : Student) :
    List (Int × List Student) :=
  asg.map (fun p => if p.1 == k then (p.1, p.2 ++ [st]) else p)

/-- The inner candidate loop of src/app.py lines 263-279: fold over the
candidate table numbers keeping `(best_table, best_score)`, starting from
`best_table = None, best_score = inf` (the first candidate always replaces the
empty accumulator), replacing on strictly smaller score. -/
def bestLoop (f : Int → ℚ) : List Int → Option (Int × ℚ) → Option (Int × ℚ)
  | [], acc => acc
  | t :: ts, acc =>
    let sc := f t
    match acc with
    | none => bestLoop f ts (some (t, sc))
    | some (bt, bs) =>
      if sc < bs then bestLoop f ts (some (t, sc)) else bestLoop f ts (some (bt, bs))

/-- Whether some placed student has id `sid` (`student in assigned_students`,
with object identity realised by the unique primary key). -/
def hasStudent (asg : List (Int × List Student)) (sid : Nat) : Bool :=
  asg.any (fun p => p.2.any (fun s => s.id == sid))

/-- The table a placed student was placed at: the first association-list
bucket containing the id. -/
def tableOf (asg : List (Int × List Student)) (sid : Nat) : Option Int :=
  (asg.find? (fun p => p.2.any (fun s => s.id == sid))).map Prod.fst

/-- The main placement loop of src/app.py lines 253-283: for each student in
`order`, score every candidate table and place the student at the returned
best table.  `if best_table:` is Python truthiness, so a best table numbered
`0` (or a `None` best, impossible with a non-empty candidate list) is skipped
and left for the fallback loop. -/
def placeAll (jit : Nat → Int → ℚ) : Nat → List (Int × List Student) → List Student →
    List (Int × List Student)
  | _, asg, [] => asg
  | i, asg, st :: rest =>
    let avail := asg.map Prod.fst
    match bestLoop (fun t => totalScore (jit i) (lookupA asg t) st t) avail none with
    | some (bt, _) =>
      if bt != 0 then placeAll jit (i + 1) (updateA asg bt st) rest
      else placeAll jit (i + 1) asg rest
    | none => placeAll jit (i + 1) asg rest

/-- The defensive fallback of src/app.py lines 285-292: remaining students are
dealt round-robin over the table-number list. -/
def roundRobin (keys : List Int) : Nat → List (Int × List Student) → List Student →
    List (Int × List Student)
  | _, asg, [] => asg
  | i, asg, st :: rest =>
    roundRobin keys (i + 1) (updateA asg (keys.getD (i % keys.length) 0) st) rest

/-- The completed `table_assignments` association list of one distribution
run: the main scored placement over `order` (src/app.py lines 253-283)
followed by the round-robin fallback over the students the main loop left
unplaced (lines 285-292). -/
def distributeAsg (order : List Student) (jit : Nat → Int → ℚ)
    (tables : List Table) : List (Int × List Student) :=
  let asg0 := (sortTables tables).map (fun t => (t.table_number, ([] : List Student)))
  let asg1 := placeAll jit 0 asg0 order
  roundRobin (asg1.map Prod.fst) 0 asg1 (order.filter (fun s => !hasStudent asg1 s.id))

/-- The write-back of src/app.py lines 294-296: a student found in a bucket
gets that bucket's table number; any other student is left unchanged. -/
def assignFn (asg : List (Int × List Student)) (s : Student) : Student :=
  match tableOf asg s.id with
  | some k => { s with table_number := some k }
  | none => s

/-- The function `distribute_students_to_tables_smart` (src/app.py lines 214-309) over an
explicit state `(allStudents, tables)`.  Returns the success flag and the
updated student and table rows.  After placement, every placed student's
`table_number` is set to its bucket's key (lines 294-296), and then - the
recount of lines 298-300 - each table's `current_count` is set to the number
of students *in the unassigned query result* (`students`) now carrying its
number; pre-existing members are not part of that list. -/
def distribute (order : List Student) (jit : Nat → Int → ℚ)
    (allStudents : List Student) (tables : List Table) :
    Bool × List Student × List Table :=
  let unassigned := allStudents.filter (fun s => s.table_number == none)
  if tables.isEmpty then (false, allStudents, tables)
  else if unassigned.isEmpty then (true, allStudents, tables)
  else
    let asg2 := distributeAsg order jit tables
    let newStudents := allStudents.map (assignFn asg2)
    let newUnassigned := unassigned.map (assignFn asg2)
    let newTables := tables.map (fun t =>
      { t with current_count :=
          (newUnassigned.countP (fun s => s.table_number == some t.table_number) : Int) })
    (true, newStudents, newTables)

/-! ## Helper lemmas -/

theorem mkDailyRows_wid (wid did0 : Nat) (ws : Int) (pool : List Student) :
    ∀ x ∈ mkDailyRows wid did0 ws pool, x.weekly_assignment_id = wid := by
  intro x hx
  simp only [mkDailyRows, List.mem_map] at hx
  obtain ⟨r, _, rfl⟩ := hx
  rfl

theorem mkDailyRows_length (wid did0 : Nat) (ws : Int) (pool : List Student) :
    (mkDailyRows wid did0 ws pool).length = 14 := by
  simp [mkDailyRows]

/-- Closed form of the weekly row the generator produces for week `w` when the
loop was entered at week `k` with running date `d` and next id `wid`. -/
def weeklyRowFor (tid : Nat) (tables : List Table) (k : Nat) (d : Int) (wid : Nat)
    (w : Nat) : WeeklyRow :=
  ⟨wid + (w - k), tid, w,
   (tables.getD ((w - 1) % tables.length) dummyTable).table_number,
   d + 7 * ((w - k : Nat) : Int), d + 7 * ((w - k : Nat) : Int) + 6⟩

theorem weeklyRowFor_shift (tid : Nat) (tables : List Table) (k : Nat) (d : Int)
    (wid : Nat) (w : Nat) (hw : k + 1 ≤ w) :
    weeklyRowFor tid tables (k + 1) (d + 7) (wid + 1) w = weeklyRowFor tid tables k d wid w := by
  have h1 : w - k = (w - (k + 1)) + 1 := by omega
  have h2 : (wid + 1) + (w - (k + 1)) = wid + (w - k) := by omega
  have h3 : (d + 7) + 7 * ((w - (k + 1) : Nat) : Int) = d + 7 * ((w - k : Nat) : Int) := by
    rw [h1]
    push_cast
    ring
  simp only [weeklyRowFor, h2, h3]

/-- The weekly rows of the generator's loop in closed form: weeks `k` to
`k + n - 1`, in order, each fully determined by its week number. -/
theorem genWeeksAux_fst (sh : Nat → List Student → List Student) (tid : Nat)
    (tables : List Table) (students : List Student) :
    ∀ (n k : Nat) (d : Int) (wid did : Nat),
      (genWeeksAux sh tid tables students n k d wid did).1
        = (List.range' k n).map (weeklyRowFor tid tables k d wid) := by
  intro n
  induction n with
  | zero => intro k d wid did; rfl
  | succ n ih =>
    intro k d wid did
    rw [List.range'_succ]
    have hhead : weeklyRowFor tid tables k d wid k
        = ⟨wid, tid, k,
            (tables.getD ((k - 1) % tables.length) dummyTable).table_number, d, d + 6⟩ := by
      simp [weeklyRowFor, Nat.sub_self]
    have htail : (List.range' (k + 1) n).map (weeklyRowFor tid tables (k + 1) (d + 7) (wid + 1))
        = (List.range' (k + 1) n).map (weeklyRowFor tid tables k d wid) := by
      refine List.map_congr_left ?_
      intro w hw
      exact weeklyRowFor_shift tid tables k d wid w (List.mem_range'_1.mp hw).1
    simp only [genWeeksAux]
    split
    · rw [ih (k + 1) (d + 7) (wid + 1) did, List.map_cons, hhead, htail]
    · rw [ih (k + 1) (d + 7) (wid + 1) (did + 14), List.map_cons, hhead, htail]

/-- After generation, the weekly rows carrying the generated term's id are
exactly the freshly generated ones, in closed form: the old rows for the term
were bulk-deleted and rows of other terms carry other ids. -/
theorem create_termRows (sh : Nat → List Student → List Student) (db : DB)
    (tid : Nat) (term : Term)
    (hterm : db.terms.find? (fun t => t.id == tid) = some term)
    (htab : sortTables db.tables ≠ []) :
    ((create_duty_schedule_for_term sh db tid).2).weekly.filter (fun r => r.term_id == tid)
      = (List.range' 1 term.weeks).map
          (weeklyRowFor tid (sortTables db.tables) 1 term.start_date db.nextWeeklyId) := by
  have hne : (sortTables db.tables).isEmpty = false := by
    cases h : sortTables db.tables with
    | nil => exact absurd h htab
    | cons a l => rfl
  simp only [create_duty_schedule_for_term, hterm, hne, Bool.false_eq_true, if_false]
  rw [List.filter_append]
  have h1 : (db.weekly.filter (fun r => r.term_id != tid)).filter
      (fun r => r.term_id == tid) = [] := by
    rw [List.filter_eq_nil_iff]
    intro a ha
    have h2 := (List.mem_filter.mp ha).2
    simp only [bne_iff_ne, ne_eq] at h2
    simp [h2]
  rw [h1, List.nil_append, genWeeksAux_fst]
  rw [List.filter_eq_self.mpr]
  intro a ha
  simp only [List.mem_map] at ha
  obtain ⟨w, _, rfl⟩ := ha
  simp [weeklyRowFor]

theorem padPool_length_ge (base : List Student) (hbase : base ≠ []) :
    ∀ (f : Nat) (pool : List Student), 28 ≤ f + pool.length →
      28 ≤ (padPool f pool base).length := by
  intro f
  induction f with
  | zero =>
    intro pool h
    simpa using h
  | succ f ih =>
    intro pool h
    simp only [padPool]
    by_cases hl : pool.length < 28
    · rw [if_pos hl]
      apply ih
      have hb : 1 ≤ base.length := List.length_pos.mpr hbase
      rw [List.length_append]
      omega
    · rw [if_neg hl]
      omega

theorem padPool_subset (base : List Student) :
    ∀ (f : Nat) (pool : List Student) (x : Student),
      x ∈ padPool f pool base → x ∈ pool ∨ x ∈ base := by
  intro f
  induction f with
  | zero =>
    intro pool x hx
    exact Or.inl hx
  | succ f ih =>
    intro pool x hx
    simp only [padPool] at hx
    by_cases hl : pool.length < 28
    · rw [if_pos hl] at hx
      rcases ih _ x hx with h | h
      · exact (List.mem_append.mp h).imp id id
      · exact Or.inr h
    · rw [if_neg hl] at hx
      exact Or.inl hx

theorem mkDailyRows_pairs (wid did0 : Nat) (ws : Int) (pool : List Student) :
    (mkDailyRows wid did0 ws pool).map (fun x => (x.date, x.shift))
      = [(ws + 0, "AM"), (ws + 0, "PM"), (ws + 1, "AM"), (ws + 1, "PM"),
         (ws + 2, "AM"), (ws + 2, "PM"), (ws + 3, "AM"), (ws + 3, "PM"),
         (ws + 4, "AM"), (ws + 4, "PM"), (ws + 5, "AM"), (ws + 5, "PM"),
         (ws + 6, "AM"), (ws + 6, "PM")] := by
  rfl

theorem mkDailyRows_slots (wid did0 : Nat) (ws : Int) (pool : List Student)
    (hpool : pool ≠ []) :
    ∀ x ∈ mkDailyRows wid did0 ws pool,
      (∃ m ∈ pool, x.student1_id = some m.id) ∧ (∃ m ∈ pool, x.student2_id = some m.id) := by
  intro x hx
  simp only [mkDailyRows, List.mem_map] at hx
  obtain ⟨r, _, rfl⟩ := hx
  have hlen : 0 < pool.length := List.length_pos.mpr hpool
  constructor
  · refine ⟨pool.getD ((2 * r) % pool.length) dummyStudent, ?_, rfl⟩
    rw [List.getD_eq_getElem pool dummyStudent (Nat.mod_lt _ hlen)]
    exact List.getElem_mem _
  · refine ⟨pool.getD ((2 * r + 1) % pool.length) dummyStudent, ?_, rfl⟩
    rw [List.getD_eq_getElem pool dummyStudent (Nat.mod_lt _ hlen)]
    exact List.getElem_mem _

theorem genWeeksAux_daily_wid (sh : Nat → List Student → List Student) (tid : Nat)
    (tables : List Table) (students : List Student) :
    ∀ (n k : Nat) (d : Int) (wid did : Nat),
      ∀ x ∈ (genWeeksAux sh tid tables students n k d wid did).2,
        wid ≤ x.weekly_assignment_id := by
  intro n
  induction n with
  | zero =>
    intro k d wid did x hx
    simp [genWeeksAux] at hx
  | succ n ih =>
    intro k d wid did x hx
    simp only [genWeeksAux] at hx
    split at hx
    · have := ih (k + 1) (d + 7) (wid + 1) did x hx
      omega
    · rcases List.mem_append.mp hx with h | h
      · have := mkDailyRows_wid _ _ _ _ x h
        omega
      · have := ih (k + 1) (d + 7) (wid + 1) (did + 14) x h
        omega

theorem genWeeksAux_fst_id_ge (sh : Nat → List Student → List Student) (tid : Nat)
    (tables : List Table) (students : List Student) (n k : Nat) (d : Int) (wid did : Nat) :
    ∀ r ∈ (genWeeksAux sh tid tables students n k d wid did).1, wid ≤ r.id := by
  intro r hr
  rw [genWeeksAux_fst] at hr
  simp only [List.mem_map] at hr
  obtain ⟨w, _, rfl⟩ := hr
  exact Nat.le_add_right _ _

/-- The daily rows the generator attributes to one of its weekly rows `r` are
exactly one `mkDailyRows` block built from `r`'s table's member pool (provided
that member list is non-empty). -/
theorem genWeeksAux_daily_of_week (sh : Nat → List Student → List Student) (tid : Nat)
    (tables : List Table) (students : List Student) :
    ∀ (n k : Nat) (d : Int) (wid did : Nat),
      ∀ r ∈ (genWeeksAux sh tid tables students n k d wid did).1,
        membersOf students r.table_number ≠ [] →
        ∃ did', (genWeeksAux sh tid tables students n k d wid did).2.filter
            (fun x => x.weekly_assignment_id == r.id)
          = mkDailyRows r.id did' r.start_date
              (padPool 28 (sh r.week_number (membersOf students r.table_number))
                (membersOf students r.table_number)) := by
  intro n
  induction n with
  | zero =>
    intro k d wid did r hr
    simp [genWeeksAux] at hr
  | succ n ih =>
    intro k d wid did r hr hmem
    by_cases hts : (membersOf students
        (tables.getD ((k - 1) % tables.length) dummyTable).table_number).isEmpty = true
    · simp only [genWeeksAux, hts, if_true] at hr ⊢
      rcases List.mem_cons.mp hr with h | h
      · subst h
        exact absurd (List.isEmpty_iff.mp hts) hmem
      · exact ih (k + 1) (d + 7) (wid + 1) did r h hmem
    · simp only [genWeeksAux, hts, Bool.false_eq_true, if_false] at hr ⊢
      rcases List.mem_cons.mp hr with h | h
      · subst h
        refine ⟨did, ?_⟩
        rw [List.filter_append]
        have h1 : (mkDailyRows wid did d
            (padPool 28 (sh k (membersOf students
              (tables.getD ((k - 1) % tables.length) dummyTable).table_number))
              (membersOf students
                (tables.getD ((k - 1) % tables.length) dummyTable).table_number))).filter
            (fun x => x.weekly_assignment_id == wid)
            = mkDailyRows wid did d
              (padPool 28 (sh k (membersOf students
                (tables.getD ((k - 1) % tables.length) dummyTable).table_number))
                (membersOf students
                  (tables.getD ((k - 1) % tables.length) dummyTable).table_number)) := by
          rw [List.filter_eq_self]
          intro a ha
          have := mkDailyRows_wid _ _ _ _ a ha
          simp [this]
        have h2 : ((genWeeksAux sh tid tables students n (k + 1) (d + 7) (wid + 1)
            (did + 14)).2).filter (fun x => x.weekly_assignment_id == wid) = [] := by
          rw [List.filter_eq_nil_iff]
          intro a ha
          have := genWeeksAux_daily_wid sh tid tables students n (k + 1) (d + 7)
            (wid + 1) (did + 14) a ha
          simp only [beq_iff_eq]
          omega
        rw [h1, h2, List.append_nil]
      · have hid : wid + 1 ≤ r.id :=
          genWeeksAux_fst_id_ge sh tid tables students n (k + 1) (d + 7) (wid + 1)
            (did + 14) r h
        obtain ⟨did', hdid⟩ := ih (k + 1) (d + 7) (wid + 1) (did + 14) r h hmem
        refine ⟨did', ?_⟩
        rw [List.filter_append]
        have h1 : (mkDailyRows wid did d
            (padPool 28 (sh k (membersOf students
              (tables.getD ((k - 1) % tables.length) dummyTable).table_number))
              (membersOf students
                (tables.getD ((k - 1) % tables.length) dummyTable).table_number))).filter
            (fun x => x.weekly_assignment_id == r.id) = [] := by
          rw [List.filter_eq_nil_iff]
          intro a ha
          have := mkDailyRows_wid _ _ _ _ a ha
          simp only [beq_iff_eq, this]
          omega
        rw [h1, List.nil_append, hdid]

/-! ## Claims -/

/-- C1: the claim states that after every distribution run each table's
`current_count` equals the number of students whose `table_number` matches it,
including tables that already had members before the run.  The code violates
this: the recount at src/app.py lines 298-300 counts only over `students`, the
list returned by the unassigned-students query, so pre-existing members are
missed.  Concretely: student 1 is already at table 1 (and the table's count is
a correct 1), student 2 is unassigned; the run succeeds and places student 2
at table 1, after which two students carry table number 1 but the table's
`current_count` is set to 1. -/
theorem c1_current_count_bug :
    distribute [⟨2, none, none, none, none⟩] (fun _ _ => 0)
        [⟨1, none, none, none, some 1⟩, ⟨2, none, none, none, none⟩] [⟨1, 10, 1⟩]
      = (true,
          [⟨1, none, none, none, some 1⟩, ⟨2, none, none, none, some 1⟩],
          [⟨1, 10, 1⟩]) ∧
    ([(⟨1, none, none, none, some 1⟩ : Student), ⟨2, none, none, none, some 1⟩].countP
        (fun s => s.table_number == some 1) = 2) := by
  constructor
  · rfl
  · decide

/-- C2: the claim states that regenerating a term's schedule deletes all of
the term's prior weekly rows and all of their daily rows, so after a second
successful run nothing from the first run remains.  The code violates this:
the bulk `WeeklyDutyAssignment.query.filter_by(term_id=...).delete()` at
src/app.py line 131 bypasses the ORM cascade of line 95, so the first run's
`DailyDuty` rows survive.  Concretely: a one-week term generated twice ends
with 28 daily rows, the first 14 of which still reference the deleted weekly
row id 1, while no weekly row with id 1 exists any more. -/
theorem c2_stale_daily_bug :
    (create_duty_schedule_for_term (fun _ l => l)
        (create_duty_schedule_for_term (fun _ l => l)
          ⟨[⟨1, none, none, none, some 1⟩], [⟨1, 10, 1⟩], [⟨1, 0, 1⟩], [], [], 1, 1⟩ 1).2
        1).1 = true ∧
    (create_duty_schedule_for_term (fun _ l => l)
        (create_duty_schedule_for_term (fun _ l => l)
          ⟨[⟨1, none, none, none, some 1⟩], [⟨1, 10, 1⟩], [⟨1, 0, 1⟩], [], [], 1, 1⟩ 1).2
        1).2.daily.length = 28 ∧
    ((create_duty_schedule_for_term (fun _ l => l)
        (create_duty_schedule_for_term (fun _ l => l)
          ⟨[⟨1, none, none, none, some 1⟩], [⟨1, 10, 1⟩], [⟨1, 0, 1⟩], [], [], 1, 1⟩ 1).2
        1).2.daily.countP (fun d => d.weekly_assignment_id == 1) = 14) ∧
    ∀ w ∈ (create_duty_schedule_for_term (fun _ l => l)
        (create_duty_schedule_for_term (fun _ l => l)
          ⟨[⟨1, none, none, none, some 1⟩], [⟨1, 10, 1⟩], [⟨1, 0, 1⟩], [], [], 1, 1⟩ 1).2
        1).2.weekly, w.id ≠ 1 := by
  refine ⟨rfl, rfl, by decide, by decide⟩

/-- C6: with zero tables the distributor reports failure and mutates no
student or table; with at least one table but no unassigned students it
reports success and mutates nothing (src/app.py lines 219-225). -/
theorem c6_empty_cases (order : List Student) (jit : Nat → Int → ℚ)
    (allStudents : List Student) (tables : List Table) :
    (tables = [] →
      distribute order jit allStudents tables = (false, allStudents, tables)) ∧
    (tables ≠ [] → allStudents.filter (fun s => s.table_number == none) = [] →
      distribute order jit allStudents tables = (true, allStudents, tables)) := by
  constructor
  · intro h
    subst h
    rfl
  · intro htab hfil
    simp only [distribute, hfil, List.isEmpty_nil]
    simp [List.isEmpty_iff, htab]

/-- Witness for `c6_empty_cases` at concrete inputs: both hypotheses are
discharged at explicit states. -/
theorem c6_empty_cases_witness :
    distribute [] (fun _ _ => 0) [⟨1, none, none, none, none⟩] []
      = (false, [⟨1, none, none, none, none⟩], []) ∧
    distribute [] (fun _ _ => 0) [⟨1, none, none, none, some 1⟩] [⟨1, 4, 1⟩]
      = (true, [⟨1, none, none, none, some 1⟩], [⟨1, 4, 1⟩]) :=
  ⟨(c6_empty_cases [] (fun _ _ => 0) [⟨1, none, none, none, none⟩] []).1 rfl,
   (c6_empty_cases [] (fun _ _ => 0) [⟨1, none, none, none, some 1⟩] [⟨1, 4, 1⟩]).2
     (by decide) (by decide)⟩

/-- C10: single-week regeneration for a weekly assignment whose table has no
member students fails and leaves the database completely unchanged: the
empty-table check at src/app.py lines 875-876 runs before the deletion at
line 879. -/
theorem c10_empty_table_atomic (sh : List Student → List Student) (db : DB)
    (waid : Nat) (wa : WeeklyRow)
    (hfind : db.weekly.find? (fun w => w.id == waid) = some wa)
    (hempty : membersOf db.students wa.table_number = []) :
    regenerate_week sh db waid = (false, db) := by
  simp only [regenerate_week, hfind, hempty, List.isEmpty_nil, if_pos]

/-- Witness for `c10_empty_table_atomic`: a database with one weekly row whose
table 5 has no members. -/
theorem c10_empty_table_atomic_witness :
    regenerate_week (fun l => l)
        ⟨[⟨1, none, none, none, some 1⟩], [⟨5, 4, 0⟩], [], [⟨1, 1, 1, 5, 0, 6⟩],
          [⟨1, 1, 0, "AM", some 1, some 1⟩], 2, 2⟩ 1
      = (false,
          ⟨[⟨1, none, none, none, some 1⟩], [⟨5, 4, 0⟩], [], [⟨1, 1, 1, 5, 0, 6⟩],
            [⟨1, 1, 0, "AM", some 1, some 1⟩], 2, 2⟩) :=
  c10_empty_table_atomic (fun l => l) _ 1 ⟨1, 1, 1, 5, 0, 6⟩ (by decide) (by decide)

/-- C9: regenerating a single week touches only that weekly assignment's
daily rows: every weekly-assignment row is unchanged (all fields, all terms),
and the daily rows of every other weekly assignment are unchanged, in content
and order (src/app.py lines 879-908 delete and insert only rows with the given
`weekly_assignment_id`).  This holds on every path, success or failure. -/
theorem c9_single_week_frame (sh : List Student → List Student) (db : DB) (waid : Nat) :
    ((regenerate_week sh db waid).2).weekly = db.weekly ∧
    ((regenerate_week sh db waid).2).daily.filter (fun d => d.weekly_assignment_id != waid)
      = db.daily.filter (fun d => d.weekly_assignment_id != waid) := by
  unfold regenerate_week
  cases hf : db.weekly.find? (fun w => w.id == waid) with
  | none => exact ⟨rfl, rfl⟩
  | some wa =>
    have hwid : wa.id = waid := by simpa using List.find?_some hf
    by_cases hts : (membersOf db.students wa.table_number).isEmpty
    · simp [hts]
    · simp only [Bool.not_eq_true] at hts
      simp only [hts, Bool.false_eq_true, if_false]
      refine ⟨trivial, ?_⟩
      rw [List.filter_append]
      have h1 : (db.daily.filter (fun d => d.weekly_assignment_id != waid)).filter
          (fun d => d.weekly_assignment_id != waid)
          = db.daily.filter (fun d => d.weekly_assignment_id != waid) := by
        rw [List.filter_filter]
        simp
      have h2 : (mkDailyRows wa.id db.nextDailyId wa.start_date
          (padPool 28 (sh (membersOf db.students wa.table_number))
            (membersOf db.students wa.table_number))).filter
          (fun d => d.weekly_assignment_id != waid) = [] := by
        rw [List.filter_eq_nil_iff]
        intro a ha
        have hw := mkDailyRows_wid _ _ _ _ a ha
        simp [hw, hwid]
      rw [h1, h2, List.append_nil]

/-- After generation, the daily rows are the pre-existing ones followed by the
freshly generated ones. -/
theorem create_daily_eq (sh : Nat → List Student → List Student) (db : DB)
    (tid : Nat) (term : Term)
    (hterm : db.terms.find? (fun t => t.id == tid) = some term)
    (htab : sortTables db.tables ≠ []) :
    ((create_duty_schedule_for_term sh db tid).2).daily
      = db.daily ++ (genWeeksAux sh tid (sortTables db.tables) db.students
          term.weeks 1 term.start_date db.nextWeeklyId db.nextDailyId).2 := by
  have hne : (sortTables db.tables).isEmpty = false := by
    cases h : sortTables db.tables with
    | nil => exact absurd h htab
    | cons a l => rfl
  simp only [create_duty_schedule_for_term, hterm, hne, Bool.false_eq_true, if_false]

/-- A small concrete database used to instantiate proved theorems: a two-week
term starting at day 0, two tables, two students at table 1, one at table 2. -/
def sampleDB : DB :=
  ⟨[⟨1, some 9, some "F", some "VN", some 1⟩, ⟨2, some 9, some "M", some "KR", some 1⟩,
    ⟨3, some 10, some "F", some "US", some 2⟩],
   [⟨1, 10, 2⟩, ⟨2, 10, 1⟩], [⟨1, 0, 2⟩], [], [], 1, 1⟩

/-- C3: generating a term of `W` weeks against at least one table creates
exactly `W` weekly rows for that term, their `week_number`s are exactly
`1..W` in order (hence each value exactly once), and every row's
`table_number` is the one at index `(week_number - 1) mod T` of the tables
ordered by `table_number` (the round-robin of src/app.py line 143). -/
theorem c3_weekly_round_robin (sh : Nat → List Student → List Student) (db : DB)
    (tid : Nat) (term : Term)
    (hterm : db.terms.find? (fun t => t.id == tid) = some term)
    (htab : sortTables db.tables ≠ []) :
    (((create_duty_schedule_for_term sh db tid).2).weekly.filter
        (fun r => r.term_id == tid)).length = term.weeks ∧
    (((create_duty_schedule_for_term sh db tid).2).weekly.filter
        (fun r => r.term_id == tid)).map (fun r => r.week_number)
      = List.range' 1 term.weeks ∧
    ∀ r ∈ ((create_duty_schedule_for_term sh db tid).2).weekly.filter
        (fun r => r.term_id == tid),
      r.table_number
        = ((sortTables db.tables).getD
            ((r.week_number - 1) % (sortTables db.tables).length) dummyTable).table_number := by
  rw [create_termRows sh db tid term hterm htab]
  refine ⟨by simp, ?_, ?_⟩
  · rw [List.map_map]
    refine (List.map_congr_left ?_).trans (List.map_id _)
    intro a _
    rfl
  intro r hr
  simp only [List.mem_map] at hr
  obtain ⟨w, _, rfl⟩ := hr
  rfl

/-- Witness for `c3_weekly_round_robin`: the sample database (two-week term,
tables 1 and 2) satisfies both hypotheses and the conclusion. -/
theorem c3_weekly_round_robin_witness :
    (((create_duty_schedule_for_term (fun _ l => l) sampleDB 1).2).weekly.filter
        (fun r => r.term_id == 1)).length = 2 ∧
    (((create_duty_schedule_for_term (fun _ l => l) sampleDB 1).2).weekly.filter
        (fun r => r.term_id == 1)).map (fun r => r.week_number) = List.range' 1 2 ∧
    ∀ r ∈ ((create_duty_schedule_for_term (fun _ l => l) sampleDB 1).2).weekly.filter
        (fun r => r.term_id == 1),
      r.table_number
        = ((sortTables sampleDB.tables).getD
            ((r.week_number - 1) % (sortTables sampleDB.tables).length) dummyTable).table_number :=
  c3_weekly_round_robin (fun _ l => l) sampleDB 1 ⟨1, 0, 2⟩ (by decide) (by decide)

/-- C4: every generated week's window is
`start_date = term.start_date + 7*(w - 1)` days with
`end_date = start_date + 6`, and consecutive windows are contiguous
(week `w+1` starts the day after week `w` ends), also across weeks whose
table has no students — the weekly row and the running date are produced
before and independently of the membership check (src/app.py lines 139-161,
193). -/
theorem c4_contiguous_windows (sh : Nat → List Student → List Student) (db : DB)
    (tid : Nat) (term : Term)
    (hterm : db.terms.find? (fun t => t.id == tid) = some term)
    (htab : sortTables db.tables ≠ []) :
    (∀ r ∈ ((create_duty_schedule_for_term sh db tid).2).weekly.filter
        (fun r => r.term_id == tid),
      r.start_date = term.start_date + 7 * ((r.week_number - 1 : Nat) : Int)
        ∧ r.end_date = r.start_date + 6) ∧
    ∀ r ∈ ((create_duty_schedule_for_term sh db tid).2).weekly.filter
        (fun r => r.term_id == tid),
      ∀ r' ∈ ((create_duty_schedule_for_term sh db tid).2).weekly.filter
        (fun r => r.term_id == tid),
        r'.week_number = r.week_number + 1 → r'.start_date = r.end_date + 1 := by
  rw [create_termRows sh db tid term hterm htab]
  constructor
  · intro r hr
    simp only [List.mem_map] at hr
    obtain ⟨w, _, rfl⟩ := hr
    exact ⟨rfl, rfl⟩
  · intro r hr r' hr' hsucc
    simp only [List.mem_map] at hr hr'
    obtain ⟨w, hw, rfl⟩ := hr
    obtain ⟨w', hw', rfl⟩ := hr'
    have hw1 : 1 ≤ w := (List.mem_range'_1.mp hw).1
    have hww : w' = w + 1 := hsucc
    subst hww
    simp only [weeklyRowFor]
    have hcast : ((w + 1 - 1 : Nat) : Int) = ((w - 1 : Nat) : Int) + 1 := by omega
    rw [hcast]
    ring

/-- Witness for `c4_contiguous_windows` on the sample database. -/
theorem c4_contiguous_windows_witness :
    (∀ r ∈ ((create_duty_schedule_for_term (fun _ l => l) sampleDB 1).2).weekly.filter
        (fun r => r.term_id == 1),
      r.start_date = 0 + 7 * ((r.week_number - 1 : Nat) : Int)
        ∧ r.end_date = r.start_date + 6) ∧
    ∀ r ∈ ((create_duty_schedule_for_term (fun _ l => l) sampleDB 1).2).weekly.filter
        (fun r => r.term_id == 1),
      ∀ r' ∈ ((create_duty_schedule_for_term (fun _ l => l) sampleDB 1).2).weekly.filter
        (fun r => r.term_id == 1),
        r'.week_number = r.week_number + 1 → r'.start_date = r.end_date + 1 :=
  c4_contiguous_windows (fun _ l => l) sampleDB 1 ⟨1, 0, 2⟩ (by decide) (by decide)

/-- C5: a generated weekly assignment whose table has at least one member gets
exactly 14 daily-duty rows, one per (date, shift) pair over the 7 window dates
and the shifts AM and PM, and both student slots of every such row hold the id
of a member of that table (the pool is the shuffled member list padded by
repetition to at least 28 entries, src/app.py lines 163-191).  `sh` must
permute its input (it models `random.shuffle`) and pre-existing daily rows
must reference already-issued weekly ids. -/
theorem c5_fourteen_filled_duties (sh : Nat → List Student → List Student) (db : DB)
    (tid : Nat) (term : Term)
    (hterm : db.terms.find? (fun t => t.id == tid) = some term)
    (htab : sortTables db.tables ≠ [])
    (hperm : ∀ w l, (sh w l).Perm l)
    (hwf : ∀ x ∈ db.daily, x.weekly_assignment_id < db.nextWeeklyId) :
    ∀ r ∈ ((create_duty_schedule_for_term sh db tid).2).weekly.filter
        (fun w => w.term_id == tid),
      membersOf db.students r.table_number ≠ [] →
      ((((create_duty_schedule_for_term sh db tid).2).daily.filter
          (fun x => x.weekly_assignment_id == r.id)).length = 14 ∧
        (((create_duty_schedule_for_term sh db tid).2).daily.filter
          (fun x => x.weekly_assignment_id == r.id)).map (fun x => (x.date, x.shift))
          = [(r.start_date + 0, "AM"), (r.start_date + 0, "PM"),
             (r.start_date + 1, "AM"), (r.start_date + 1, "PM"),
             (r.start_date + 2, "AM"), (r.start_date + 2, "PM"),
             (r.start_date + 3, "AM"), (r.start_date + 3, "PM"),
             (r.start_date + 4, "AM"), (r.start_date + 4, "PM"),
             (r.start_date + 5, "AM"), (r.start_date + 5, "PM"),
             (r.start_date + 6, "AM"), (r.start_date + 6, "PM")] ∧
        ∀ x ∈ ((create_duty_schedule_for_term sh db tid).2).daily.filter
          (fun x => x.weekly_assignment_id == r.id),
          (∃ m ∈ membersOf db.students r.table_number, x.student1_id = some m.id) ∧
          (∃ m ∈ membersOf db.students r.table_number, x.student2_id = some m.id)) := by
  intro r hr hmem
  have hr1 : r ∈ (genWeeksAux sh tid (sortTables db.tables) db.students term.weeks 1
      term.start_date db.nextWeeklyId db.nextDailyId).1 := by
    rw [create_termRows sh db tid term hterm htab] at hr
    rw [genWeeksAux_fst]
    exact hr
  have hidge : db.nextWeeklyId ≤ r.id :=
    genWeeksAux_fst_id_ge sh tid _ _ _ _ _ _ _ r hr1
  obtain ⟨did', hdid⟩ := genWeeksAux_daily_of_week sh tid (sortTables db.tables)
    db.students term.weeks 1 term.start_date db.nextWeeklyId db.nextDailyId r hr1 hmem
  have hdaily : (((create_duty_schedule_for_term sh db tid).2).daily.filter
      (fun x => x.weekly_assignment_id == r.id))
      = mkDailyRows r.id did' r.start_date
          (padPool 28 (sh r.week_number (membersOf db.students r.table_number))
            (membersOf db.students r.table_number)) := by
    rw [create_daily_eq sh db tid term hterm htab, List.filter_append]
    have h0 : db.daily.filter (fun x => x.weekly_assignment_id == r.id) = [] := by
      rw [List.filter_eq_nil_iff]
      intro a ha
      have := hwf a ha
      simp only [beq_iff_eq]
      omega
    rw [h0, List.nil_append, hdid]
  have hpoolne : padPool 28 (sh r.week_number (membersOf db.students r.table_number))
      (membersOf db.students r.table_number) ≠ [] := by
    have h28 := padPool_length_ge (membersOf db.students r.table_number) hmem 28
      (sh r.week_number (membersOf db.students r.table_number)) (Nat.le_add_right 28 _)
    intro hnil
    rw [hnil] at h28
    simp at h28
  refine ⟨?_, ?_, ?_⟩
  · rw [hdaily]
    exact mkDailyRows_length _ _ _ _
  · rw [hdaily]
    exact mkDailyRows_pairs _ _ _ _
  · intro x hx
    rw [hdaily] at hx
    have hs := mkDailyRows_slots _ _ _ _ hpoolne x hx
    constructor
    · obtain ⟨m, hm, he⟩ := hs.1
      rcases padPool_subset _ 28 _ m hm with h | h
      · exact ⟨m, (hperm r.week_number _).mem_iff.mp h, he⟩
      · exact ⟨m, h, he⟩
    · obtain ⟨m, hm, he⟩ := hs.2
      rcases padPool_subset _ 28 _ m hm with h | h
      · exact ⟨m, (hperm r.week_number _).mem_iff.mp h, he⟩
      · exact ⟨m, h, he⟩

/-- Witness for `c5_fourteen_filled_duties`: week 1 of the sample database
(table 1, two members) gets 14 daily rows over days 0..6 with both slots
filled by members of table 1. -/
theorem c5_fourteen_filled_duties_witness :
    ((((create_duty_schedule_for_term (fun _ l => l) sampleDB 1).2).daily.filter
        (fun x => x.weekly_assignment_id == 1)).length = 14 ∧
      (((create_duty_schedule_for_term (fun _ l => l) sampleDB 1).2).daily.filter
        (fun x => x.weekly_assignment_id == 1)).map (fun x => (x.date, x.shift))
        = [((0 : Int) + 0, "AM"), ((0 : Int) + 0, "PM"),
           ((0 : Int) + 1, "AM"), ((0 : Int) + 1, "PM"),
           ((0 : Int) + 2, "AM"), ((0 : Int) + 2, "PM"),
           ((0 : Int) + 3, "AM"), ((0 : Int) + 3, "PM"),
           ((0 : Int) + 4, "AM"), ((0 : Int) + 4, "PM"),
           ((0 : Int) + 5, "AM"), ((0 : Int) + 5, "PM"),
           ((0 : Int) + 6, "AM"), ((0 : Int) + 6, "PM")] ∧
      ∀ x ∈ ((create_duty_schedule_for_term (fun _ l => l) sampleDB 1).2).daily.filter
        (fun x => x.weekly_assignment_id == 1),
        (∃ m ∈ membersOf sampleDB.students 1, x.student1_id = some m.id) ∧
        (∃ m ∈ membersOf sampleDB.students 1, x.student2_id = some m.id)) :=
  c5_fourteen_filled_duties (fun _ l => l) sampleDB 1 ⟨1, 0, 2⟩ (by decide) (by decide)
    (fun _ l => List.Perm.refl l) (by simp [sampleDB]) ⟨1, 1, 1, 1, 0, 6⟩ (by decide)
    (by decide)

/-! ## Distributor lemmas -/

theorem bestLoop_spec (f : Int → ℚ) :
    ∀ (l : List Int) (b : Int) (s : ℚ),
      ∃ bt sc, bestLoop f l (some (b, s)) = some (bt, sc) ∧
        ((bt = b ∧ sc = s) ∨ (bt ∈ l ∧ sc = f bt)) ∧ sc ≤ s ∧ ∀ t ∈ l, sc ≤ f t := by
  intro l
  induction l with
  | nil =>
    intro b s
    exact ⟨b, s, rfl, Or.inl ⟨rfl, rfl⟩, le_refl s, by simp⟩
  | cons t ts ih =>
    intro b s
    simp only [bestLoop]
    by_cases h : f t < s
    · rw [if_pos h]
      obtain ⟨bt, sc, he, hcase, hle, hall⟩ := ih t (f t)
      refine ⟨bt, sc, he, ?_, le_of_lt (lt_of_le_of_lt hle h), ?_⟩
      · rcases hcase with ⟨h1, h2⟩ | ⟨h1, h2⟩
        · exact Or.inr ⟨by rw [h1]; exact List.mem_cons_self _ _, by rw [h2, h1]⟩
        · exact Or.inr ⟨List.mem_cons_of_mem _ h1, h2⟩
      · intro u hu
        rcases List.mem_cons.mp hu with h1 | h1
        · rw [h1]
          exact hle
        · exact hall u h1
    · rw [if_neg h]
      obtain ⟨bt, sc, he, hcase, hle, hall⟩ := ih b s
      refine ⟨bt, sc, he, ?_, hle, ?_⟩
      · rcases hcase with h1 | ⟨h1, h2⟩
        · exact Or.inl h1
        · exact Or.inr ⟨List.mem_cons_of_mem _ h1, h2⟩
      · intro u hu
        rcases List.mem_cons.mp hu with h1 | h1
        · rw [h1]
          exact le_trans hle (not_lt.mp h)
        · exact hall u h1

theorem updateA_keys (asg : List (Int × List Student)) (k : Int) (st : Student) :
    (updateA asg k st).map Prod.fst = asg.map Prod.fst := by
  simp only [updateA, List.map_map]
  refine List.map_congr_left ?_
  intro p _
  simp only [Function.comp_apply]
  split
  · rfl
  · rfl

theorem placeAll_keys (jit : Nat → Int → ℚ) :
    ∀ (l : List Student) (i : Nat) (asg : List (Int × List Student)),
      (placeAll jit i asg l).map Prod.fst = asg.map Prod.fst := by
  intro l
  induction l with
  | nil =>
    intro i asg
    rfl
  | cons st rest ih =>
    intro i asg
    simp only [placeAll]
    cases hb : bestLoop (fun t => totalScore (jit i) (lookupA asg t) st t)
        (asg.map Prod.fst) none with
    | none => exact ih (i + 1) asg
    | some p =>
      obtain ⟨bt, sc⟩ := p
      dsimp only
      by_cases hbt : (bt != 0) = true
      · rw [if_pos hbt, ih (i + 1) (updateA asg bt st), updateA_keys]
      · rw [if_neg hbt]
        exact ih (i + 1) asg

theorem roundRobin_keys (keys : List Int) :
    ∀ (l : List Student) (i : Nat) (asg : List (Int × List Student)),
      (roundRobin keys i asg l).map Prod.fst = asg.map Prod.fst := by
  intro l
  induction l with
  | nil =>
    intro i asg
    rfl
  | cons st rest ih =>
    intro i asg
    simp only [roundRobin]
    rw [ih, updateA_keys]

theorem hasStudent_updateA_mono (asg : List (Int × List Student)) (k : Int)
    (st : Student) (sid : Nat) (h : hasStudent asg sid = true) :
    hasStudent (updateA asg k st) sid = true := by
  simp only [hasStudent, List.any_eq_true] at h ⊢
  obtain ⟨p, hp, hany⟩ := h
  by_cases hk : (p.1 == k) = true
  · refine ⟨(p.1, p.2 ++ [st]), ?_, ?_⟩
    · simp only [updateA, List.mem_map]
      exact ⟨p, hp, by rw [if_pos hk]⟩
    · simp only [List.any_eq_true] at hany ⊢
      obtain ⟨s, hs, he⟩ := hany
      exact ⟨s, List.mem_append_left _ hs, he⟩
  · refine ⟨p, ?_, hany⟩
    simp only [updateA, List.mem_map]
    exact ⟨p, hp, by rw [if_neg hk]⟩

theorem hasStudent_updateA_self (asg : List (Int × List Student)) (k : Int)
    (st : Student) (hk : k ∈ asg.map Prod.fst) :
    hasStudent (updateA asg k st) st.id = true := by
  simp only [List.mem_map] at hk
  obtain ⟨p, hp, rfl⟩ := hk
  simp only [hasStudent, List.any_eq_true]
  refine ⟨(p.1, p.2 ++ [st]), ?_, ?_⟩
  · simp only [updateA, List.mem_map]
    refine ⟨p, hp, ?_⟩
    rw [if_pos (by simp)]
  · simp only [List.any_eq_true]
    exact ⟨st, List.mem_append_right _ (List.mem_cons_self st []), by simp⟩

theorem placeAll_hasStudent_mono (jit : Nat → Int → ℚ) (sid : Nat) :
    ∀ (l : List Student) (i : Nat) (asg : List (Int × List Student)),
      hasStudent asg sid = true → hasStudent (placeAll jit i asg l) sid = true := by
  intro l
  induction l with
  | nil =>
    intro i asg h
    exact h
  | cons st rest ih =>
    intro i asg h
    simp only [placeAll]
    cases hb : bestLoop (fun t => totalScore (jit i) (lookupA asg t) st t)
        (asg.map Prod.fst) none with
    | none => exact ih (i + 1) asg h
    | some p =>
      obtain ⟨bt, sc⟩ := p
      dsimp only
      by_cases hbt : (bt != 0) = true
      · rw [if_pos hbt]
        exact ih (i + 1) _ (hasStudent_updateA_mono asg bt st sid h)
      · rw [if_neg hbt]
        exact ih (i + 1) asg h

theorem roundRobin_hasStudent_mono (keys : List Int) (sid : Nat) :
    ∀ (l : List Student) (i : Nat) (asg : List (Int × List Student)),
      hasStudent asg sid = true → hasStudent (roundRobin keys i asg l) sid = true := by
  intro l
  induction l with
  | nil =>
    intro i asg h
    exact h
  | cons st rest ih =>
    intro i asg h
    simp only [roundRobin]
    exact ih (i + 1) _ (hasStudent_updateA_mono asg _ st sid h)

theorem roundRobin_covers (keys : List Int) (hk : keys ≠ []) :
    ∀ (l : List Student) (i : Nat) (asg : List (Int × List Student)),
      asg.map Prod.fst = keys →
      ∀ st ∈ l, hasStudent (roundRobin keys i asg l) st.id = true := by
  intro l
  induction l with
  | nil =>
    intro i asg _ st hst
    simp at hst
  | cons st0 rest ih =>
    intro i asg hkeys st hst
    simp only [roundRobin]
    rcases List.mem_cons.mp hst with h | h
    · subst h
      apply roundRobin_hasStudent_mono
      apply hasStudent_updateA_self
      rw [hkeys]
      have hlen : 0 < keys.length := List.length_pos.mpr hk
      rw [List.getD_eq_getElem keys 0 (Nat.mod_lt _ hlen)]
      exact List.getElem_mem _
    · exact ih (i + 1) _ (by rw [updateA_keys, hkeys]) st h

theorem tableOf_mem (asg : List (Int × List Student)) (sid : Nat)
    (h : hasStudent asg sid = true) :
    ∃ k, tableOf asg sid = some k ∧ k ∈ asg.map Prod.fst := by
  have hs : (asg.find? (fun p => p.2.any (fun s => s.id == sid))).isSome := by
    rw [List.find?_isSome]
    simpa only [hasStudent, List.any_eq_true] using h
  obtain ⟨p, hp⟩ := Option.isSome_iff_exists.mp hs
  exact ⟨p.1, by simp [tableOf, hp],
    List.mem_map_of_mem _ (List.mem_of_find?_eq_some hp)⟩

theorem mem_insertTable (t u : Table) : ∀ l : List Table,
    (u ∈ insertTable t l ↔ u = t ∨ u ∈ l) := by
  intro l
  induction l with
  | nil => simp [insertTable]
  | cons a as ih =>
    simp only [insertTable]
    by_cases h : t.table_number ≤ a.table_number
    · rw [if_pos h]
      simp [List.mem_cons]
    · rw [if_neg h]
      simp only [List.mem_cons, ih]
      tauto

theorem mem_sortTables (u : Table) : ∀ l : List Table, (u ∈ sortTables l ↔ u ∈ l) := by
  intro l
  induction l with
  | nil => simp [sortTables]
  | cons a as ih =>
    simp only [sortTables, mem_insertTable, List.mem_cons, ih]

theorem sortTables_ne_nil (l : List Table) (h : l ≠ []) : sortTables l ≠ [] := by
  cases l with
  | nil => exact absurd rfl h
  | cons a as =>
    intro hnil
    have : a ∈ sortTables (a :: as) := (mem_sortTables a _).mpr (List.mem_cons_self a as)
    rw [hnil] at this
    simp at this

theorem distributeAsg_keys (order : List Student) (jit : Nat → Int → ℚ)
    (tables : List Table) :
    (distributeAsg order jit tables).map Prod.fst
      = (sortTables tables).map (fun t => t.table_number) := by
  simp only [distributeAsg]
  rw [roundRobin_keys, placeAll_keys, List.map_map]
  rfl

theorem distributeAsg_covers (order : List Student) (jit : Nat → Int → ℚ)
    (tables : List Table) (htab : tables ≠ []) :
    ∀ st ∈ order, hasStudent (distributeAsg order jit tables) st.id = true := by
  intro st hst
  simp only [distributeAsg]
  by_cases h : hasStudent (placeAll jit 0
      ((sortTables tables).map (fun t => (t.table_number, ([] : List Student)))) order)
      st.id = true
  · exact roundRobin_hasStudent_mono _ _ _ _ _ h
  · have hkne : (placeAll jit 0
        ((sortTables tables).map (fun t => (t.table_number, ([] : List Student)))) order).map
          Prod.fst ≠ [] := by
      rw [placeAll_keys, List.map_map]
      intro hnil
      exact sortTables_ne_nil tables htab (List.map_eq_nil_iff.mp hnil)
    refine roundRobin_covers _ hkne _ 0 _ rfl st ?_
    rw [List.mem_filter]
    exact ⟨hst, by simp [h]⟩

/-- C7: with at least one table, every previously unassigned student ends a
distribution run carrying the `table_number` of some existing table.  The main
loop places a student unless its best table is Python-falsy, and the fallback
round-robin of src/app.py lines 285-292 then places every student the main
loop skipped, always at a key of `table_assignments`, whose keys are exactly
the existing table numbers. -/
theorem c7_no_student_left_unassigned (order : List Student) (jit : Nat → Int → ℚ)
    (allStudents : List Student) (tables : List Table)
    (htab : tables ≠ [])
    (horder : order.Perm (allStudents.filter (fun s => s.table_number == none))) :
    ∀ s ∈ allStudents, s.table_number = none →
      ∃ s' ∈ (distribute order jit allStudents tables).2.1,
        s'.id = s.id ∧ ∃ t ∈ tables, s'.table_number = some t.table_number := by
  intro s hs hnone
  have hsu : s ∈ allStudents.filter (fun s => s.table_number == none) :=
    List.mem_filter.mpr ⟨hs, by simp [hnone]⟩
  have hsord : s ∈ order := horder.mem_iff.mpr hsu
  have hune : (allStudents.filter (fun s => s.table_number == none)).isEmpty = false := by
    cases hfil : allStudents.filter (fun s => s.table_number == none) with
    | nil =>
      rw [hfil] at hsu
      simp at hsu
    | cons a l => rfl
  have htabe : tables.isEmpty = false := by
    cases tables with
    | nil => exact absurd rfl htab
    | cons a l => rfl
  simp only [distribute, hune, htabe, Bool.false_eq_true, if_false]
  have hcov := distributeAsg_covers order jit tables htab s hsord
  obtain ⟨k, hk, hkmem⟩ := tableOf_mem _ _ hcov
  refine ⟨assignFn (distributeAsg order jit tables) s, List.mem_map_of_mem _ hs, ?_, ?_⟩
  · simp [assignFn, hk]
  · rw [distributeAsg_keys] at hkmem
    obtain ⟨tb, htb, rfl⟩ := List.mem_map.mp hkmem
    exact ⟨tb, (mem_sortTables tb tables).mp htb, by simp [assignFn, hk]⟩

/-- Witness for `c7_no_student_left_unassigned`: one table, one unassigned
student. -/
theorem c7_no_student_left_unassigned_witness :
    ∃ s' ∈ (distribute [⟨2, none, none, none, none⟩] (fun _ _ => 0)
        [⟨2, none, none, none, none⟩] [⟨1, 10, 0⟩]).2.1,
      s'.id = 2 ∧ ∃ t ∈ [(⟨1, 10, 0⟩ : Table)], s'.table_number = some t.table_number :=
  c7_no_student_left_unassigned [⟨2, none, none, none, none⟩] (fun _ _ => 0)
    [⟨2, none, none, none, none⟩] [⟨1, 10, 0⟩] (by decide) (by decide)
    ⟨2, none, none, none, none⟩ (by decide) rfl

/-- C8: at the moment a student is placed, the main loop places it at a table
whose score - `3 x` members sharing grade `+ 2 x` sharing gender `+ 2 x`
sharing country over the students placed at that table so far, plus the drawn
jitter in `[0, 2)` - is minimal among all candidate tables (src/app.py lines
263-283; strict `<` keeps the first minimiser).  `asg` is the running
`table_assignments` state, `st` the student being placed; no real table is
numbered `0` (table creation rejects that number), so the chosen table is not
Python-falsy and the placement happens. -/
theorem c8_minimal_score_placement (jit : Nat → Int → ℚ) (i : Nat)
    (asg : List (Int × List Student)) (st : Student) (rest : List Student)
    (hne : asg.map Prod.fst ≠ [])
    (h0 : (0 : Int) ∉ asg.map Prod.fst)
    (hjit : ∀ t, 0 ≤ jit i t ∧ jit i t < 2) :
    ∃ bt sc,
      bestLoop (fun t => totalScore (jit i) (lookupA asg t) st t) (asg.map Prod.fst) none
        = some (bt, sc) ∧
      bt ∈ asg.map Prod.fst ∧
      sc = totalScore (jit i) (lookupA asg bt) st bt ∧
      (∀ t ∈ asg.map Prod.fst, sc ≤ totalScore (jit i) (lookupA asg t) st t) ∧
      placeAll jit i asg (st :: rest) = placeAll jit (i + 1) (updateA asg bt st) rest := by
  cases hl : asg.map Prod.fst with
  | nil => exact absurd hl hne
  | cons t0 ts =>
    obtain ⟨bt, sc, he, hcase, hle, hall⟩ :=
      bestLoop_spec (fun t => totalScore (jit i) (lookupA asg t) st t) ts t0
        (totalScore (jit i) (lookupA asg t0) st t0)
    have hbl : bestLoop (fun t => totalScore (jit i) (lookupA asg t) st t)
        (t0 :: ts) none = some (bt, sc) := he
    have hblm : bestLoop (fun t => totalScore (jit i) (lookupA asg t) st t)
        (asg.map Prod.fst) none = some (bt, sc) := by
      rw [hl]
      exact hbl
    have hbtmem : bt ∈ t0 :: ts := by
      rcases hcase with ⟨h1, _⟩ | ⟨h1, _⟩
      · rw [h1]
        exact List.mem_cons_self _ _
      · exact List.mem_cons_of_mem _ h1
    have hbt0 : (bt != 0) = true := by
      rw [bne_iff_ne]
      intro hbt
      rw [hbt, ← hl] at hbtmem
      exact h0 hbtmem
    refine ⟨bt, sc, hbl, hbtmem, ?_, ?_, ?_⟩
    · rcases hcase with ⟨h1, h2⟩ | ⟨_, h2⟩
      · rw [h2, h1]
      · exact h2
    · intro t ht
      rcases List.mem_cons.mp ht with h1 | h1
      · rw [h1]
        exact hle
      · exact hall t h1
    · simp only [placeAll, hblm]
      rw [if_pos hbt0]

/-- Witness for `c8_minimal_score_placement`: one candidate table numbered 1,
empty running state, zero jitter. -/
theorem c8_minimal_score_placement_witness :
    ∃ bt sc,
      bestLoop (fun t => totalScore (fun _ => (0 : ℚ))
          (lookupA [(1, ([] : List Student))] t) dummyStudent t)
        ([(1, ([] : List Student))].map Prod.fst) none = some (bt, sc) ∧
      bt ∈ [(1, ([] : List Student))].map Prod.fst ∧
      sc = totalScore (fun _ => (0 : ℚ)) (lookupA [(1, ([] : List Student))] bt)
          dummyStudent bt ∧
      (∀ t ∈ [(1, ([] : List Student))].map Prod.fst,
        sc ≤ totalScore (fun _ => (0 : ℚ)) (lookupA [(1, ([] : List Student))] t)
          dummyStudent t) ∧
      placeAll (fun _ _ => 0) 0 [(1, ([] : List Student))] [dummyStudent]
        = placeAll (fun _ _ => 0) 1 (updateA [(1, ([] : List Student))] bt dummyStudent) [] :=
  c8_minimal_score_placement (fun _ _ => 0) 0 [(1, ([] : List Student))] dummyStudent []
    (by decide) (by decide) (fun t => ⟨le_refl 0, by norm_num⟩)

end DutyMgmt
